import Mathlib

/-!
# sr6: host table synchronisation and server shutdown

A shallow embedding of `sr6/hosts.go` (the hosts file manager) and of the
shutdown, timer and accept paths of `sr6/server.go`, followed by the
properties established about them.

Conventions of the embedding:

* a Go `string` is the list of its code points (`GoString`); the separators
  the code splits on are ASCII, so splitting code points and splitting bytes
  agree on valid UTF-8;
* a Go `map[string]string` is a finite map (`Finmap`), compared
  extensionally; the order in which `range` visits it is an explicit
  argument;
* the file system and the membership library are the environment: their
  answers are arguments, their calls are recorded as events.
-/

namespace Sr6

/-! ## Strings -/

/-- A Go string, as the list of its code points. -/
abbrev GoString := List Char

/-- Go `unicode.IsSpace`: the code points with the White Space property. -/
def isSpace (c : Char) : Bool :=
  c = '\t' || c = '\n' || c = '\x0b' || c = '\x0c' || c = '\r' || c = ' ' ||
  c.toNat = 0x85 || c.toNat = 0xA0 || c.toNat = 0x1680 ||
  (0x2000 ≤ c.toNat && c.toNat ≤ 0x200a) ||
  c.toNat = 0x2028 || c.toNat = 0x2029 || c.toNat = 0x202f ||
  c.toNat = 0x205f || c.toNat = 0x3000

/-- Go `strings.TrimSpace`: drop the leading and the trailing white space. -/
def TrimSpace (s : GoString) : GoString :=
  (s.dropWhile isSpace).rdropWhile isSpace

/-- Go `strings.Split(s, sep)` for a separator of one character: the pieces
between the occurrences of `sep`, one more than there are occurrences. -/
def Split (s : GoString) (sep : Char) : List GoString :=
  s.splitOn sep

/-- Go `fmt.Sprintf("%s %s\n", k, v)`. -/
def Sprintf (k v : GoString) : GoString :=
  k ++ ' ' :: v ++ ['\n']

/-! ## Host table -/

/-- The map `hosts map[string]string`, from address to host name. -/
abbrev HostTable := Finmap (fun _ : GoString => GoString)

/-- One key and value of the map. -/
abbrev Entry := Sigma (fun _ : GoString => GoString)

/-- The type `HostsManager` of `hosts.go` (the mutex is not modelled: every
method runs to completion under it). -/
structure HostsManager where
  /-- The map of ip to hostname. -/
  hosts : HostTable
  /-- The path of the hosts file. -/
  path : GoString
deriving DecidableEq

/-- An error of the operating system, as far as `os.IsNotExist` tells them
apart. -/
inductive OSError where
  | notExist
  | other (code : Nat)
deriving DecidableEq, Repr

/-- Go `os.IsNotExist(err)`, on the error result of a call (`none` is `nil`). -/
def IsNotExist (err : Option OSError) : Bool :=
  err = some OSError.notExist

/-- The file system as `NewHostsManager` sees it: the error result of
`os.Stat` and the result of `ioutil.ReadFile`, for each path. -/
structure FileSystem where
  Stat : GoString → Option OSError
  ReadFile : GoString → Except OSError GoString

/-- What the file system holds at a path. -/
inductive PathState where
  /-- No file at the path: its directory is reached and has no such entry;
  `os.Stat` and `ioutil.ReadFile` fail with ENOENT. -/
  | missing
  /-- No file at the path, because the path cannot be followed (a component
  of it is a regular file, ENOTDIR, code 20); `os.Stat` and `ioutil.ReadFile`
  fail with that error. -/
  | notReachable (code : Nat)
  /-- A file that `os.Stat` finds and `ioutil.ReadFile` fails to read. -/
  | unreadable (code : Nat)
  /-- A file that `os.Stat` finds and `ioutil.ReadFile` reads. -/
  | readable (content : GoString)
deriving DecidableEq

/-- Whether there is a file at a path in that state. -/
def PathState.hasFile : PathState → Bool
  | PathState.missing => false
  | PathState.notReachable _ => false
  | PathState.unreadable _ => true
  | PathState.readable _ => true

/-- The answers of `os.Stat` and `ioutil.ReadFile` in a state of the file
system. -/
def FileSystem.ofState (st : GoString → PathState) : FileSystem :=
  { Stat := fun p =>
      match st p with
      | PathState.missing => some OSError.notExist
      | PathState.notReachable code => some (OSError.other code)
      | PathState.unreadable _ => none
      | PathState.readable _ => none,
    ReadFile := fun p =>
      match st p with
      | PathState.missing => Except.error OSError.notExist
      | PathState.notReachable code => Except.error (OSError.other code)
      | PathState.unreadable code => Except.error (OSError.other code)
      | PathState.readable content => Except.ok content }

/-- The body of the loop of `NewHostsManager` over the lines of the file. -/
def parseLine (hosts : HostTable) (l : GoString) : HostTable :=
  let x := Split l ' '
  if x.length < 2 then hosts
  else
    let ip := TrimSpace (x.getD 0 [])
    let hostname := TrimSpace (x.getD 1 [])
    let hostname := if x.length = 3 then x.getD 2 [] else hostname
    hosts.insert ip hostname

/-- The parsing loop of `NewHostsManager`: the lines of the input, in order,
starting from the empty map. -/
def parseHosts (input : GoString) : HostTable :=
  (Split input '\n').foldl parseLine ∅

/-- The function `NewHostsManager`: `Except.ok h` is `(h, nil)` and
`Except.error e` is `(nil, e)`. The warning logged for a missing file is not
recorded. -/
def NewHostsManager (fs : FileSystem) (path : GoString) : Except OSError HostsManager :=
  if IsNotExist (fs.Stat path) then
    Except.ok { hosts := ∅, path := path }
  else
    match fs.ReadFile path with
    | Except.error err => Except.error err
    | Except.ok input => Except.ok { hosts := parseHosts input, path := path }

/-- The type `serf.MemberStatus`. -/
inductive MemberStatus where
  | StatusNone
  | StatusAlive
  | StatusLeaving
  | StatusLeft
  | StatusFailed
deriving DecidableEq, Repr

/-- The fields of `serf.Member` that `update` reads; `Addr` holds the text
`m.Addr.String()`, the only form in which the address is used. -/
structure Member where
  Name : GoString
  Addr : GoString
  Status : MemberStatus
deriving DecidableEq

/-- The body of the loop of `update` over the members. -/
def updateMember (hosts : HostTable) (m : Member) : HostTable :=
  if m.Status = MemberStatus.StatusAlive then hosts.insert m.Addr m.Name
  else hosts.erase m.Addr

/-- The method `HostsManager.String`; `order` is the sequence in which
`range h.hosts` yields the entries (see `RangeOrder`). -/
def HostsManager.String (_h : HostsManager) (order : List Entry) : GoString :=
  order.foldl (fun content kv => content ++ Sprintf kv.1 kv.2) []

/-- The sequences in which a `range` over the map may yield its entries:
every entry once, in any order. -/
def RangeOrder (hosts : HostTable) (order : List Entry) : Prop :=
  (order : Multiset Entry) = hosts.entries

instance (hosts : HostTable) (order : List Entry) : Decidable (RangeOrder hosts order) :=
  inferInstanceAs (Decidable ((order : Multiset Entry) = hosts.entries))

/-- What a call of `update` does to the manager (the map after the loop). -/
def HostsManager.update (h : HostsManager) (members : List Member) : HostsManager :=
  { h with hosts := members.foldl updateMember h.hosts }

/-- The arguments `update` passes to `OverwriteFile` once the loop is done:
the path and `h.String()`, for the order in which the map is ranged. -/
def HostsManager.updateWrites (h : HostsManager) (members : List Member)
    (order : List Entry) : GoString × GoString :=
  ((h.update members).path, (h.update members).String order)

/-- A run of `update` over a sequence of snapshots, oldest first. -/
def updateAll (h : HostsManager) (snapshots : List (List Member)) : HostsManager :=
  snapshots.foldl HostsManager.update h

/-! ## Server: shutdown, timer loop, accept loop -/

/-- A Go `error` value. -/
structure GoError where
  text : GoString
deriving DecidableEq

/-- The handle `*serf.Serf`. The membership it reports belongs to the
library and changes on its own (a `Leave` marks the local member as left), so
the answer of `Members()` is an input of the pass that asks for it. -/
inductive Serf where
  | handle
deriving DecidableEq

/-- The listener `net.Listener` of the RPC server. -/
structure Listener where
  closed : Bool
deriving DecidableEq

/-- The channel `chan struct{}` on which nothing is ever sent: a receive is
ready once the channel is closed, and blocks before. -/
structure SignalChan where
  closed : Bool
deriving DecidableEq

/-- An accepted connection `net.Conn`. -/
structure Conn where
  remoteAddr : GoString
deriving DecidableEq

/-- The calls the server makes on its environment, in the order made. -/
inductive Event where
  /-- The line `[INFO] sr6: shutting down server`. -/
  | logShuttingDown
  /-- The call `s.serfLAN.Leave()`. -/
  | serfLeave
  /-- The call `s.serfLAN.Shutdown()`. -/
  | serfShutdown
  /-- The call `s.rpcListener.Close()`. -/
  | listenerClose
  /-- The line `[ERR] sr6.rpc: failed to accept RPC conn`. -/
  | logAcceptFailed (err : GoError)
  /-- The line `[INFO] rpc: Accepted client`. -/
  | logAccepted (conn : Conn)
  /-- The call `rpc.ServeConn(conn)`. -/
  | serveConn (conn : Conn)
  /-- The call `s.hosts.update(members)`. -/
  | hostsUpdate (members : List Member)
deriving DecidableEq

/-- The fields of `Server` that the shutdown, timer and accept paths use;
`none` is a `nil` handle. -/
structure Server where
  serfLAN : Option Serf
  rpcListener : Option Listener
  shutdown : Bool
  shutdownCh : SignalChan
  hosts : HostsManager
deriving DecidableEq

/-- How one pass of a loop ends. -/
inductive LoopStep where
  /-- The loop goes on with its next pass. -/
  | next
  /-- The function returns. -/
  | ret
  /-- A method is called on a `nil` value: the goroutine panics. -/
  | nilDeref
deriving DecidableEq, Repr

/-- The statements of `Shutdown` after the test of the flag: set the flag,
leave and shut down serf when there is a handle, close the listener when
there is one. -/
def Server.shutdownBody (s : Server) : Server × List Event :=
  let s := { s with shutdown := true }
  let serfCalls := if s.serfLAN.isSome then [Event.serfLeave, Event.serfShutdown] else []
  match s.rpcListener with
  | some _ =>
      ({ s with rpcListener := some { closed := true } }, serfCalls ++ [Event.listenerClose])
  | none => (s, serfCalls)

/-- The method `Server.Shutdown`, run under `shutdownLock`: the state after
the call, the calls made, and the error returned (`none` is `nil`). -/
def Server.Shutdown (s : Server) : Server × List Event × Option GoError :=
  if s.shutdown then (s, [Event.logShuttingDown], none)
  else (s.shutdownBody.1, Event.logShuttingDown :: s.shutdownBody.2, none)

/-- A run of `n` calls of `Shutdown`, one after the other as `shutdownLock`
orders them: the final state, all the calls made, and the results. -/
def ShutdownRun : Nat → Server → Server × List Event × List (Option GoError)
  | 0, s => (s, [], [])
  | n + 1, s =>
      let r := s.Shutdown
      let rest := ShutdownRun n r.1
      (rest.1, r.2.1 ++ rest.2.1, r.2.2 :: rest.2.2)

/-- The two cases of the `select` in `updateHosts`. -/
inductive SelectCase where
  /-- The case `<-ticker.C`. -/
  | tick
  /-- The case `<-s.shutdownCh`. -/
  | shutdownSignal
deriving DecidableEq, Repr

/-- The cases of the `select` in `updateHosts` that can fire, given whether
a tick is pending on `ticker.C`; with none the goroutine blocks, with two
Go picks either. -/
def Server.updateHostsReady (s : Server) (tickPending : Bool) : List SelectCase :=
  (if tickPending then [SelectCase.tick] else []) ++
    (if s.shutdownCh.closed then [SelectCase.shutdownSignal] else [])

/-- One pass of the loop of `updateHosts` for the case that fired; `members`
is what `s.serfLAN.Members()` answers in this pass. -/
def Server.updateHostsStep (s : Server) (members : List Member) :
    SelectCase → Server × List Event × LoopStep
  | SelectCase.tick =>
      match s.serfLAN with
      | none => (s, [], LoopStep.nilDeref)
      | some _ =>
          ({ s with hosts := s.hosts.update members },
            [Event.hostsUpdate members], LoopStep.next)
  | SelectCase.shutdownSignal => (s, [], LoopStep.ret)

/-- One pass of the `for` loop of `listenRPC`, for the two results
`conn, err` of `s.rpcListener.Accept()` (`none` is `nil`). The test of `err`
either returns or, after logging, falls through to the two statements that
use `conn`. The call `s.rpcServer.Accept` that precedes the loop is not part
of a pass. -/
def Server.listenRPCStep (s : Server) (conn : Option Conn) (err : Option GoError) :
    List Event × LoopStep :=
  let afterErr : Option (List Event) :=
    match err with
    | some e => if s.shutdown then none else some [Event.logAcceptFailed e]
    | none => some []
  match afterErr with
  | none => ([], LoopStep.ret)
  | some logged =>
      match conn with
      | none => (logged, LoopStep.nilDeref)
      | some c => (logged ++ [Event.logAccepted c, Event.serveConn c], LoopStep.next)

/-! ## Auxiliary definitions: the terms of the properties and concrete inputs -/

/-- The member of a snapshot that decides the fate of address `a`: the last
one listed with that address. -/
def lastFor (members : List Member) (a : GoString) : Option Member :=
  members.reverse.find? (fun m => decide (m.Addr = a))

/-- The addresses of the Alive members of a snapshot, as the convergence
property of the specification names them. -/
def aliveAddrs (members : List Member) : List GoString :=
  (members.filter (fun m => decide (m.Status = MemberStatus.StatusAlive))).map Member.Addr

/-- The table of the reconciliation scenario: B under the name old, C under c. -/
def scenarioTable (B C : GoString) : HostTable :=
  ((∅ : HostTable).insert B "old".toList).insert C "c".toList

/-- The snapshot of the reconciliation scenario: A and B Alive, C Failed. -/
def scenarioSnapshot (A B C : GoString) : List Member :=
  [⟨"a".toList, A, MemberStatus.StatusAlive⟩, ⟨"b".toList, B, MemberStatus.StatusAlive⟩,
    ⟨"c".toList, C, MemberStatus.StatusFailed⟩]

/-- A file system in which every path is a readable file with the given
content. -/
def fileWith (content : GoString) : FileSystem :=
  { Stat := fun _ => none, ReadFile := fun _ => Except.ok content }

/-- The white-space separated fields of a line, as the specification counts
them: the maximal runs of characters that are not white space. -/
def whitespaceFields (l : GoString) : List GoString :=
  (l.splitOnP isSpace).filter (fun f => !f.isEmpty)

/-- A text that the file format carries unchanged: no space, no line feed,
and no white space at either end. -/
def PlainToken (s : GoString) : Prop :=
  ' ' ∉ s ∧ '\n' ∉ s ∧ TrimSpace s = s

instance (s : GoString) : Decidable (PlainToken s) :=
  inferInstanceAs (Decidable (' ' ∉ s ∧ '\n' ∉ s ∧ TrimSpace s = s))

/-- The table of two plain entries used to exercise the round trip. -/
def twoHosts : HostsManager :=
  { hosts := ((∅ : HostTable).insert "10.0.0.1".toList "a".toList).insert
      "10.0.0.2".toList "b".toList,
    path := "/etc/hosts".toList }

/-- A server as `NewServer` returns it: serf joined, the listener open, the
flag clear and the channel open. -/
def runningServer : Server :=
  { serfLAN := some Serf.handle,
    rpcListener := some { closed := false },
    shutdown := false,
    shutdownCh := { closed := false },
    hosts := { hosts := ∅, path := "/etc/hosts".toList } }

/-! ## Facts about `update` -/

theorem lookup_updateMember (t : HostTable) (m : Member) (a : GoString) :
    (updateMember t m).lookup a =
      if m.Addr = a then
        (if m.Status = MemberStatus.StatusAlive then some m.Name else none)
      else t.lookup a := by
  unfold updateMember
  by_cases hs : m.Status = MemberStatus.StatusAlive
  · by_cases ha : m.Addr = a
    · subst ha; simp [hs, Finmap.lookup_insert]
    · simp [hs, ha, Finmap.lookup_insert_of_ne _ (Ne.symm ha)]
  · by_cases ha : m.Addr = a
    · subst ha; simp [hs, Finmap.lookup_erase]
    · simp [hs, ha, Finmap.lookup_erase_ne (Ne.symm ha)]

theorem lookup_foldl_updateMember (members : List Member) (t : HostTable) (a : GoString) :
    (members.foldl updateMember t).lookup a =
      match lastFor members a with
      | some m => if m.Status = MemberStatus.StatusAlive then some m.Name else none
      | none => t.lookup a := by
  induction members using List.reverseRecOn with
  | nil => simp [lastFor]
  | append_singleton init m ih =>
    rw [List.foldl_append]
    simp only [List.foldl_cons, List.foldl_nil]
    rw [lookup_updateMember]
    by_cases ha : m.Addr = a
    · simp [lastFor, ha]
    · have : lastFor (init ++ [m]) a = lastFor init a := by
        simp [lastFor, ha]
      rw [this, if_neg ha, ih]

theorem lookup_update (h : HostsManager) (members : List Member) (a : GoString) :
    (h.update members).hosts.lookup a =
      match lastFor members a with
      | some m => if m.Status = MemberStatus.StatusAlive then some m.Name else none
      | none => h.hosts.lookup a :=
  lookup_foldl_updateMember members h.hosts a

theorem updateAll_append_singleton (h : HostsManager) (earlier : List (List Member))
    (last : List Member) :
    updateAll h (earlier ++ [last]) = (updateAll h earlier).update last := by
  simp [updateAll, List.foldl_append]

/-! ## Reconciliation -/

/-- C1, as the code has it: after any run of `update` over one or more
snapshots, an address that the last snapshot lists is in the table exactly
when its last listing there is Alive, under that member's name, and an
address that the last snapshot does not list has the entry, or the absence,
it had before the last snapshot was applied. -/
theorem update_converges_on_listed_addresses (h : HostsManager)
    (earlier : List (List Member)) (last : List Member) (a : GoString) :
    (updateAll h (earlier ++ [last])).hosts.lookup a =
      match lastFor last a with
      | some m => if m.Status = MemberStatus.StatusAlive then some m.Name else none
      | none => (updateAll h earlier).hosts.lookup a := by
  rw [updateAll_append_singleton]
  exact lookup_update _ _ _

/-- C1 as stated fails: from the table with the one entry 10.0.0.9 and the
single snapshot listing only 10.0.0.1 as Alive, the keys of the result are
not the Alive addresses of that snapshot, since 10.0.0.9 is still there. -/
theorem update_keeps_unlisted_address :
    (updateAll ⟨Finmap.singleton "10.0.0.9".toList "stale".toList, "/etc/hosts".toList⟩
        [[⟨"a".toList, "10.0.0.1".toList, MemberStatus.StatusAlive⟩]]).hosts.keys
      ≠ (aliveAddrs [⟨"a".toList, "10.0.0.1".toList, MemberStatus.StatusAlive⟩]).toFinset ∧
    (updateAll ⟨Finmap.singleton "10.0.0.9".toList "stale".toList, "/etc/hosts".toList⟩
        [[⟨"a".toList, "10.0.0.1".toList, MemberStatus.StatusAlive⟩]]).hosts.lookup
          "10.0.0.9".toList = some "stale".toList := by
  decide

/-- C2: applying `update` with the same snapshot a second time leaves the
manager as the first application left it, for every table and every
snapshot, repeated addresses included. -/
theorem update_idempotent (h : HostsManager) (members : List Member) :
    (h.update members).update members = h.update members := by
  have hosts_eq : ((h.update members).update members).hosts = (h.update members).hosts := by
    apply Finmap.ext_lookup
    intro a
    rw [lookup_update (h.update members) members a, lookup_update h members a]
    cases lastFor members a <;> rfl
  calc (h.update members).update members
      = { hosts := ((h.update members).update members).hosts, path := h.path } := rfl
    _ = { hosts := (h.update members).hosts, path := h.path } := by rw [hosts_eq]
    _ = h.update members := rfl

theorem perm_pair_iff {α : Type} (p q : α) (l : List α) :
    l.Perm [p, q] ↔ l = [p, q] ∨ l = [q, p] := by
  constructor
  · intro h
    have hl := h.length_eq
    match l, hl, h with
    | [x, y], _, h =>
      have hx : x ∈ [p, q] := h.subset (by simp)
      simp only [List.mem_cons, List.mem_singleton, List.not_mem_nil, or_false] at hx
      rcases hx with rfl | rfl
      · have h2 := (List.perm_cons x).1 h
        rw [List.perm_singleton] at h2
        left; rw [h2]
      · have h2 := (List.perm_cons x).1 (h.trans (List.Perm.swap x p []))
        rw [List.perm_singleton] at h2
        right; rw [h2]
  · rintro (rfl | rfl)
    · exact List.Perm.refl _
    · exact List.Perm.swap p q []

theorem scenario_hosts (A B C path : GoString) (hAB : A ≠ B) (hAC : A ≠ C) (hBC : B ≠ C) :
    (HostsManager.update ⟨scenarioTable B C, path⟩ (scenarioSnapshot A B C)).hosts =
      ((∅ : HostTable).insert A "a".toList).insert B "b".toList := by
  apply Finmap.ext_lookup
  intro x
  simp only [HostsManager.update, scenarioSnapshot, scenarioTable, List.foldl_cons,
    List.foldl_nil, updateMember, if_true, reduceCtorEq, if_false]
  by_cases hxC : x = C
  · subst hxC
    rw [Finmap.lookup_erase, Finmap.lookup_insert_of_ne _ (Ne.symm hBC),
      Finmap.lookup_insert_of_ne _ (Ne.symm hAC), Finmap.lookup_empty]
  · rw [Finmap.lookup_erase_ne hxC]
    by_cases hxB : x = B
    · subst hxB
      rw [Finmap.lookup_insert, Finmap.lookup_insert]
    · rw [Finmap.lookup_insert_of_ne _ hxB, Finmap.lookup_insert_of_ne _ hxB]
      by_cases hxA : x = A
      · subst hxA
        rw [Finmap.lookup_insert, Finmap.lookup_insert]
      · rw [Finmap.lookup_insert_of_ne _ hxA, Finmap.lookup_insert_of_ne _ hxA,
          Finmap.lookup_insert_of_ne _ hxC, Finmap.lookup_insert_of_ne _ hxB]

theorem rangeOrder_pair (A B a b : GoString) (hAB : A ≠ B) (order : List Entry) :
    RangeOrder (((∅ : HostTable).insert A a).insert B b) order ↔
      order = [⟨A, a⟩, ⟨B, b⟩] ∨ order = [⟨B, b⟩, ⟨A, a⟩] := by
  have hA : A ∉ (∅ : HostTable) := Finmap.not_mem_empty
  have hB : B ∉ (∅ : HostTable).insert A a := by
    rw [Finmap.mem_insert]
    rintro (h | h)
    · exact hAB h.symm
    · exact Finmap.not_mem_empty h
  have hent : (((∅ : HostTable).insert A a).insert B b).entries
      = (([⟨B, b⟩, ⟨A, a⟩] : List Entry) : Multiset Entry) := by
    rw [Finmap.insert_entries_of_neg hB, Finmap.insert_entries_of_neg hA]
    rfl
  unfold RangeOrder
  rw [hent, Multiset.coe_eq_coe, perm_pair_iff]
  exact or_comm

/-- C4: for distinct addresses A, B and C, `update` with the snapshot A Alive
as a, B Alive as b, C Failed as c, on the table holding B as old and C as c,
leaves exactly the table holding A as a and B as b, and the content passed to
the backing store is the two lines for A and for B, in one of the two orders
(each of which a range over the map can give). -/
theorem update_scenario (A B C path : GoString) (hAB : A ≠ B) (hAC : A ≠ C) (hBC : B ≠ C) :
    (HostsManager.update ⟨scenarioTable B C, path⟩ (scenarioSnapshot A B C)).hosts =
        ((∅ : HostTable).insert A "a".toList).insert B "b".toList ∧
    (∀ order : List Entry,
      RangeOrder (HostsManager.update ⟨scenarioTable B C, path⟩ (scenarioSnapshot A B C)).hosts
          order →
        (HostsManager.updateWrites ⟨scenarioTable B C, path⟩ (scenarioSnapshot A B C) order).2
            = Sprintf A "a".toList ++ Sprintf B "b".toList ∨
        (HostsManager.updateWrites ⟨scenarioTable B C, path⟩ (scenarioSnapshot A B C) order).2
            = Sprintf B "b".toList ++ Sprintf A "a".toList) ∧
    RangeOrder (HostsManager.update ⟨scenarioTable B C, path⟩ (scenarioSnapshot A B C)).hosts
      [⟨A, "a".toList⟩, ⟨B, "b".toList⟩] ∧
    RangeOrder (HostsManager.update ⟨scenarioTable B C, path⟩ (scenarioSnapshot A B C)).hosts
      [⟨B, "b".toList⟩, ⟨A, "a".toList⟩] := by
  have hh := scenario_hosts A B C path hAB hAC hBC
  refine ⟨hh, ?_, ?_, ?_⟩
  · intro order hord
    rw [hh, rangeOrder_pair A B _ _ hAB] at hord
    rcases hord with rfl | rfl
    · left; simp [HostsManager.updateWrites, HostsManager.String]
    · right; simp [HostsManager.updateWrites, HostsManager.String]
  · rw [hh, rangeOrder_pair A B _ _ hAB]; exact Or.inl rfl
  · rw [hh, rangeOrder_pair A B _ _ hAB]; exact Or.inr rfl

/-- C4 at the addresses 10.0.0.1, 10.0.0.2 and 10.0.0.3. -/
theorem update_scenario_witness :
    "10.0.0.1".toList ≠ "10.0.0.2".toList ∧
    (HostsManager.update ⟨scenarioTable "10.0.0.2".toList "10.0.0.3".toList, "/etc/hosts".toList⟩
        (scenarioSnapshot "10.0.0.1".toList "10.0.0.2".toList "10.0.0.3".toList)).hosts =
      ((∅ : HostTable).insert "10.0.0.1".toList "a".toList).insert "10.0.0.2".toList "b".toList :=
  ⟨by decide,
    (update_scenario "10.0.0.1".toList "10.0.0.2".toList "10.0.0.3".toList "/etc/hosts".toList
      (by decide) (by decide) (by decide)).1⟩

/-! ## Loading the hosts file -/

/-- C7 fails on the code: `NewHostsManager` returns the empty table for a
missing file only when `os.Stat` fails with ENOENT. In every state of the
file system the result is: the empty table bound to the path when the file is
missing with ENOENT, the error of the read when the file is there and cannot
be read, the parsed table when it is read, and, against the claim and the
comment above the test, the error when there is no file at the path and
`os.Stat` fails otherwise, as for a path under a regular file (ENOTDIR). -/
theorem NewHostsManager_missing_file_error :
    (∀ (st : GoString → PathState) (path : GoString),
      NewHostsManager (FileSystem.ofState st) path =
        match st path with
        | PathState.missing => Except.ok { hosts := ∅, path := path }
        | PathState.notReachable code => Except.error (OSError.other code)
        | PathState.unreadable code => Except.error (OSError.other code)
        | PathState.readable content =>
            Except.ok { hosts := parseHosts content, path := path }) ∧
    (PathState.notReachable 20).hasFile = false ∧
    NewHostsManager (FileSystem.ofState (fun _ => PathState.notReachable 20))
        "/tmp/sr6v/dir/file/child".toList = Except.error (OSError.other 20) := by
  refine ⟨?_, rfl, rfl⟩
  intro st path
  unfold NewHostsManager FileSystem.ofState
  cases hst : st path <;> simp [hst, IsNotExist]

theorem parseLine_of_short (t : HostTable) (l : GoString) (h : (Split l ' ').length < 2) :
    parseLine t l = t := by
  simp [parseLine, h]

theorem parseLine_of_long (t : HostTable) (l : GoString) (h : 2 ≤ (Split l ' ').length) :
    parseLine t l =
      t.insert (TrimSpace ((Split l ' ').getD 0 []))
        (if (Split l ' ').length = 3 then (Split l ' ').getD 2 []
          else TrimSpace ((Split l ' ').getD 1 [])) := by
  have h2 : ¬ (Split l ' ').length < 2 := by omega
  simp [parseLine, h2]

theorem lookup_foldl_parseLine_of_ne (post : List GoString) (t : HostTable) (a : GoString)
    (hpost : ∀ l2 ∈ post, 2 ≤ (Split l2 ' ').length →
      TrimSpace ((Split l2 ' ').getD 0 []) ≠ a) :
    (post.foldl parseLine t).lookup a = t.lookup a := by
  induction post generalizing t with
  | nil => rfl
  | cons l2 rest ih =>
    rw [List.foldl_cons, ih _ (fun l3 h3 => hpost l3 (List.mem_cons_of_mem _ h3))]
    by_cases hlen : 2 ≤ (Split l2 ' ').length
    · rw [parseLine_of_long t l2 hlen]
      exact Finmap.lookup_insert_of_ne _ (Ne.symm (hpost l2 (List.mem_cons_self _ _) hlen))
    · rw [parseLine_of_short t l2 (by omega)]

theorem split_eq_single (l : GoString) (c : Char) (h : c ∉ l) : Split l c = [l] := by
  unfold Split List.splitOn
  apply List.splitOnP_eq_single
  intro x hx hxc
  have : x = c := by simpa using hxc
  exact h (this ▸ hx)

theorem split_append_sep (l rest : GoString) (c : Char) (h : c ∉ l) :
    Split (l ++ c :: rest) c = l :: Split rest c := by
  unfold Split List.splitOn
  apply List.splitOnP_first
  · intro x hx hxc
    have : x = c := by simpa using hxc
    exact h (this ▸ hx)
  · simp

/-- C5, as the code has it: for a line of a readable hosts file that has two
or more pieces when split at every single space, and whose address no later
line sets again, the table returned maps the trimmed first piece to the third
piece as it stands when there are exactly three pieces, and to the trimmed
second piece when there are two pieces or more than three. -/
theorem NewHostsManager_name_selection (fs : FileSystem) (path input : GoString)
    (pre post : List GoString) (l : GoString)
    (hstat : IsNotExist (fs.Stat path) = false)
    (hread : fs.ReadFile path = Except.ok input)
    (hlines : Split input '\n' = pre ++ l :: post)
    (hlen : 2 ≤ (Split l ' ').length)
    (hlater : ∀ l2 ∈ post, 2 ≤ (Split l2 ' ').length →
      TrimSpace ((Split l2 ' ').getD 0 []) ≠ TrimSpace ((Split l ' ').getD 0 [])) :
    ∃ h, NewHostsManager fs path = Except.ok h ∧ h.path = path ∧
      h.hosts.lookup (TrimSpace ((Split l ' ').getD 0 [])) =
        some (if (Split l ' ').length = 3 then (Split l ' ').getD 2 []
          else TrimSpace ((Split l ' ').getD 1 [])) := by
  refine ⟨{ hosts := parseHosts input, path := path }, ?_, rfl, ?_⟩
  · simp [NewHostsManager, hstat, hread]
  · show (parseHosts input).lookup _ = _
    unfold parseHosts
    rw [hlines, List.foldl_append, List.foldl_cons,
      lookup_foldl_parseLine_of_ne post _ _ hlater, parseLine_of_long _ l hlen,
      Finmap.lookup_insert]

/-- C5 on the two lines of the specification: the line with an alias gives
the third piece, the line with two pieces gives the second. -/
theorem NewHostsManager_name_selection_witness :
    (∃ h, NewHostsManager (fileWith "10.0.0.1 alias realname".toList) "/etc/hosts".toList
        = Except.ok h ∧ h.path = "/etc/hosts".toList ∧
      h.hosts.lookup "10.0.0.1".toList = some "realname".toList) ∧
    (∃ h, NewHostsManager (fileWith "10.0.0.1 name".toList) "/etc/hosts".toList
        = Except.ok h ∧ h.path = "/etc/hosts".toList ∧
      h.hosts.lookup "10.0.0.1".toList = some "name".toList) :=
  ⟨NewHostsManager_name_selection (fileWith "10.0.0.1 alias realname".toList)
      "/etc/hosts".toList "10.0.0.1 alias realname".toList [] []
      "10.0.0.1 alias realname".toList rfl rfl (by decide) (by decide)
      (fun _ h => absurd h (List.not_mem_nil _)),
    NewHostsManager_name_selection (fileWith "10.0.0.1 name".toList)
      "/etc/hosts".toList "10.0.0.1 name".toList [] []
      "10.0.0.1 name".toList rfl rfl (by decide) (by decide)
      (fun _ h => absurd h (List.not_mem_nil _))⟩

/-- C5 as stated fails: the line `10.0.0.1 alias realname extra` has four
fields, the third being realname, and the table returned maps 10.0.0.1 to
alias, the second. -/
theorem NewHostsManager_four_fields_second :
    whitespaceFields "10.0.0.1 alias realname extra".toList =
        ["10.0.0.1".toList, "alias".toList, "realname".toList, "extra".toList] ∧
    NewHostsManager (fileWith "10.0.0.1 alias realname extra".toList) "/etc/hosts".toList =
      Except.ok { hosts := (∅ : HostTable).insert "10.0.0.1".toList "alias".toList,
                  path := "/etc/hosts".toList } := by
  have hparse : parseHosts "10.0.0.1 alias realname extra".toList =
      (∅ : HostTable).insert "10.0.0.1".toList "alias".toList := by decide
  exact ⟨by decide, by rw [← hparse]; rfl⟩

/-- C6, as the code has it: a readable file always loads without error, and
a line without any space character (an empty line, or one token with no space
before or after it) adds no entry: the table is the one that the other lines
give. -/
theorem NewHostsManager_skips_spaceless_line (fs : FileSystem) (path input : GoString)
    (hstat : IsNotExist (fs.Stat path) = false)
    (hread : fs.ReadFile path = Except.ok input) :
    NewHostsManager fs path = Except.ok { hosts := parseHosts input, path := path } ∧
    ∀ (pre post : List GoString) (l : GoString),
      Split input '\n' = pre ++ l :: post → ' ' ∉ l →
        parseHosts input = (pre ++ post).foldl parseLine ∅ := by
  constructor
  · simp [NewHostsManager, hstat, hread]
  · intro pre post l hlines hl
    have hshort : (Split l ' ').length < 2 := by
      rw [split_eq_single l ' ' hl]; simp
    unfold parseHosts
    rw [hlines, List.foldl_append, List.foldl_cons, List.foldl_append,
      parseLine_of_short _ l hshort]

/-- C6 on a file whose first line is the single token host1: only the second
line gives an entry. -/
theorem NewHostsManager_skips_spaceless_line_witness :
    NewHostsManager (fileWith "host1\n10.0.0.1 name".toList) "/etc/hosts".toList =
      Except.ok { hosts := parseHosts "host1\n10.0.0.1 name".toList,
                  path := "/etc/hosts".toList } ∧
    parseHosts "host1\n10.0.0.1 name".toList =
      ([] ++ ["10.0.0.1 name".toList]).foldl parseLine ∅ :=
  ⟨(NewHostsManager_skips_spaceless_line (fileWith "host1\n10.0.0.1 name".toList)
      "/etc/hosts".toList "host1\n10.0.0.1 name".toList rfl rfl).1,
    (NewHostsManager_skips_spaceless_line (fileWith "host1\n10.0.0.1 name".toList)
      "/etc/hosts".toList "host1\n10.0.0.1 name".toList rfl rfl).2
      [] ["10.0.0.1 name".toList] "host1".toList (by decide) (by decide)⟩

/-- C6 as stated fails: the line made of the token host1 and one trailing
space has a single white-space separated field, and the table returned has
an entry for host1, with the empty name. -/
theorem NewHostsManager_trailing_space_entry :
    whitespaceFields "host1 ".toList = ["host1".toList] ∧
    NewHostsManager (fileWith "host1 ".toList) "/etc/hosts".toList =
      Except.ok { hosts := (∅ : HostTable).insert "host1".toList [],
                  path := "/etc/hosts".toList } ∧
    (∅ : HostTable).insert "host1".toList [] ≠ ∅ := by
  have hparse : parseHosts "host1 ".toList = (∅ : HostTable).insert "host1".toList [] := by
    decide
  exact ⟨by decide, by rw [← hparse]; rfl, by decide⟩

/-! ## Serialisation and loading -/

theorem String_eq_foldr (h : HostsManager) (order : List Entry) :
    h.String order = order.foldr (fun kv rest => Sprintf kv.1 kv.2 ++ rest) [] := by
  have key : ∀ (acc : GoString),
      order.foldl (fun content kv => content ++ Sprintf kv.1 kv.2) acc =
        acc ++ order.foldr (fun kv rest => Sprintf kv.1 kv.2 ++ rest) [] := by
    induction order with
    | nil => intro acc; simp
    | cons e rest ih => intro acc; simp [ih, List.append_assoc]
  simpa [HostsManager.String] using key []

theorem split_lines_foldr (order : List Entry)
    (hplain : ∀ e ∈ order, PlainToken e.1 ∧ PlainToken e.2) :
    Split (order.foldr (fun kv rest => Sprintf kv.1 kv.2 ++ rest) []) '\n' =
      order.map (fun (kv : Entry) => kv.1 ++ ' ' :: kv.2) ++ [[]] := by
  induction order with
  | nil => rfl
  | cons e rest ih =>
    have he := hplain e (List.mem_cons_self _ _)
    have hno : '\n' ∉ e.1 ++ ' ' :: e.2 := by
      intro hmem
      rcases List.mem_append.1 hmem with h1 | h2
      · exact he.1.2.1 h1
      · rcases List.mem_cons.1 h2 with h3 | h4
        · exact absurd h3 (by decide)
        · exact he.2.2.1 h4
    have hshape : Sprintf e.1 e.2 ++ rest.foldr (fun kv r => Sprintf kv.1 kv.2 ++ r) [] =
        (e.1 ++ ' ' :: e.2) ++ '\n' :: rest.foldr (fun kv r => Sprintf kv.1 kv.2 ++ r) [] := by
      simp [Sprintf, List.append_assoc]
    rw [List.foldr_cons, hshape, split_append_sep _ _ _ hno,
      ih (fun e2 h2 => hplain e2 (List.mem_cons_of_mem _ h2))]
    rfl

theorem parseLine_plain (t : HostTable) (k v : GoString) (hk : PlainToken k)
    (hv : PlainToken v) : parseLine t (k ++ ' ' :: v) = t.insert k v := by
  have hsplit : Split (k ++ ' ' :: v) ' ' = [k, v] := by
    rw [split_append_sep _ _ _ hk.1, split_eq_single _ _ hv.1]
  simp [parseLine, hsplit, hk.2.2, hv.2.2]

theorem parseLine_nil (t : HostTable) : parseLine t [] = t :=
  parseLine_of_short t [] (by decide)

theorem foldl_parseLine_plain (order : List Entry) (t : HostTable)
    (hplain : ∀ e ∈ order, PlainToken e.1 ∧ PlainToken e.2) :
    (order.map (fun (kv : Entry) => kv.1 ++ ' ' :: kv.2) ++ [[]]).foldl parseLine t =
      order.foldl (fun t kv => t.insert kv.1 kv.2) t := by
  induction order generalizing t with
  | nil => exact parseLine_nil t
  | cons e rest ih =>
    have he := hplain e (List.mem_cons_self _ _)
    simp only [List.map_cons, List.cons_append, List.foldl_cons]
    rw [parseLine_plain t e.1 e.2 he.1 he.2]
    exact ih _ (fun e2 h2 => hplain e2 (List.mem_cons_of_mem _ h2))

theorem foldl_insert_eq_toFinmap (order : List Entry) :
    order.foldl (fun (t : HostTable) kv => t.insert kv.1 kv.2) ∅ = order.reverse.toFinmap := by
  induction order using List.reverseRecOn with
  | nil => rfl
  | append_singleton init e ih =>
    rw [List.foldl_append, List.reverse_append, List.reverse_singleton,
      List.singleton_append, ih]
    cases e with
    | mk k v => exact (Finmap.toFinmap_cons k v init.reverse).symm

theorem foldl_insert_of_rangeOrder (t : HostTable) (order : List Entry)
    (hord : RangeOrder t order) :
    order.foldl (fun t kv => t.insert kv.1 kv.2) ∅ = t := by
  rw [foldl_insert_eq_toFinmap]
  apply Finmap.ext_lookup
  intro a
  rw [Finmap.dlookup_list_toFinmap]
  induction t using Finmap.induction_on with
  | H al =>
    have hperm : order.Perm al.entries := by
      have := hord
      unfold RangeOrder at this
      rw [AList.toFinmap_entries] at this
      exact Multiset.coe_eq_coe.1 this
    have hnd : order.reverse.NodupKeys :=
      (List.perm_nodupKeys ((List.reverse_perm order).trans hperm)).2 al.nodupKeys
    rw [Finmap.lookup_toFinmap]
    exact List.perm_dlookup a hnd al.nodupKeys ((List.reverse_perm order).trans hperm)

/-- C3, as the code has it: for a table in which every address and every
name is free of spaces and line feeds and has no white space at either end,
whatever the order in which `String` emits the lines, `NewHostsManager` on a
file with that content returns the same table. -/
theorem String_NewHostsManager_roundtrip (h : HostsManager) (order : List Entry)
    (fs : FileSystem) (path : GoString)
    (hord : RangeOrder h.hosts order)
    (hplain : ∀ e ∈ h.hosts.entries, PlainToken e.1 ∧ PlainToken e.2)
    (hstat : IsNotExist (fs.Stat path) = false)
    (hread : fs.ReadFile path = Except.ok (h.String order)) :
    NewHostsManager fs path = Except.ok { hosts := h.hosts, path := path } := by
  have hplain2 : ∀ e ∈ order, PlainToken e.1 ∧ PlainToken e.2 := by
    intro e he
    apply hplain e
    rw [← hord]
    exact Multiset.mem_coe.2 he
  have hparse : parseHosts (h.String order) = h.hosts := by
    unfold parseHosts
    rw [String_eq_foldr, split_lines_foldr order hplain2, foldl_parseLine_plain order ∅ hplain2]
    exact foldl_insert_of_rangeOrder h.hosts order hord
  simp [NewHostsManager, hstat, hread, hparse]

/-- C3 on the table of 10.0.0.1 as a and 10.0.0.2 as b, serialised with the
second address first. -/
theorem String_NewHostsManager_roundtrip_witness :
    RangeOrder twoHosts.hosts [⟨"10.0.0.2".toList, "b".toList⟩, ⟨"10.0.0.1".toList, "a".toList⟩] ∧
    NewHostsManager
        (fileWith (twoHosts.String
          [⟨"10.0.0.2".toList, "b".toList⟩, ⟨"10.0.0.1".toList, "a".toList⟩]))
        "/tmp/hosts".toList =
      Except.ok { hosts := twoHosts.hosts, path := "/tmp/hosts".toList } :=
  ⟨by decide,
    String_NewHostsManager_roundtrip twoHosts
      [⟨"10.0.0.2".toList, "b".toList⟩, ⟨"10.0.0.1".toList, "a".toList⟩]
      (fileWith (twoHosts.String
        [⟨"10.0.0.2".toList, "b".toList⟩, ⟨"10.0.0.1".toList, "a".toList⟩]))
      "/tmp/hosts".toList (by decide) (by decide) rfl rfl⟩

/-- C3 as stated fails: the table with the one entry 10.0.0.1 under the name
`a b` is serialised as the line `10.0.0.1 a b`, which loads as 10.0.0.1 under
the name b, a different table. -/
theorem roundtrip_loses_name_with_space :
    RangeOrder ((∅ : HostTable).insert "10.0.0.1".toList "a b".toList)
      [⟨"10.0.0.1".toList, "a b".toList⟩] ∧
    NewHostsManager
        (fileWith (HostsManager.String
          ⟨(∅ : HostTable).insert "10.0.0.1".toList "a b".toList, "/etc/hosts".toList⟩
          [⟨"10.0.0.1".toList, "a b".toList⟩]))
        "/etc/hosts".toList =
      Except.ok { hosts := (∅ : HostTable).insert "10.0.0.1".toList "b".toList,
                  path := "/etc/hosts".toList } ∧
    (∅ : HostTable).insert "10.0.0.1".toList "b".toList ≠
      (∅ : HostTable).insert "10.0.0.1".toList "a b".toList := by
  have hparse : parseHosts (HostsManager.String
      ⟨(∅ : HostTable).insert "10.0.0.1".toList "a b".toList, "/etc/hosts".toList⟩
      [⟨"10.0.0.1".toList, "a b".toList⟩]) =
      (∅ : HostTable).insert "10.0.0.1".toList "b".toList := by decide
  exact ⟨by decide, by rw [← hparse]; rfl, by decide⟩

/-! ## Shutdown -/

theorem shutdownBody_events (s : Server) :
    s.shutdownBody.2 =
      (if s.serfLAN.isSome then [Event.serfLeave, Event.serfShutdown] else []) ++
        (if s.rpcListener.isSome then [Event.listenerClose] else []) := by
  unfold Server.shutdownBody
  cases s.rpcListener <;> simp

theorem shutdownBody_flag (s : Server) : s.shutdownBody.1.shutdown = true := by
  unfold Server.shutdownBody
  cases s.rpcListener <;> rfl

theorem Shutdown_of_flag (s : Server) (hs : s.shutdown = true) :
    s.Shutdown = (s, [Event.logShuttingDown], none) := by
  simp [Server.Shutdown, hs]

theorem ShutdownRun_of_flag (n : Nat) (s : Server) (hs : s.shutdown = true) :
    ShutdownRun n s =
      (s, List.replicate n Event.logShuttingDown, List.replicate n none) := by
  induction n with
  | zero => rfl
  | succ k ih =>
    simp only [ShutdownRun, Shutdown_of_flag s hs, ih, List.replicate_succ]
    rfl

/-- C8: in a run of `n` calls of `Shutdown`, `n` at least one, on a server
whose flag is clear, the statements after the test of the flag run once, in
the first call: the final state is the state after them, the calls made are
the log line, then Leave and Shutdown of serf (when there is a handle), then
Close of the listener (when there is one), then only the log lines of the
other calls; every call returns nil; the flag is set at the end; and a call
on a server whose flag is set changes nothing and returns nil. -/
theorem Shutdown_idempotent (n : Nat) (s : Server) (hn : 1 ≤ n) (hs : s.shutdown = false) :
    (ShutdownRun n s).1 = s.shutdownBody.1 ∧
    (ShutdownRun n s).2.1 =
      Event.logShuttingDown ::
        ((if s.serfLAN.isSome then [Event.serfLeave, Event.serfShutdown] else []) ++
          (if s.rpcListener.isSome then [Event.listenerClose] else [])) ++
        List.replicate (n - 1) Event.logShuttingDown ∧
    (ShutdownRun n s).2.2 = List.replicate n none ∧
    (ShutdownRun n s).1.shutdown = true ∧
    (∀ s2 : Server, s2.shutdown = true →
      s2.Shutdown = (s2, [Event.logShuttingDown], none)) ∧
    (∀ s2 : Server, s2.Shutdown.1.shutdown = true ∧ s2.Shutdown.2.2 = none) := by
  obtain ⟨k, rfl⟩ : ∃ k, n = k + 1 := ⟨n - 1, by omega⟩
  have hfirst : s.Shutdown =
      (s.shutdownBody.1, Event.logShuttingDown :: s.shutdownBody.2, none) := by
    simp [Server.Shutdown, hs]
  have hrun : ShutdownRun (k + 1) s =
      (s.shutdownBody.1,
        (Event.logShuttingDown :: s.shutdownBody.2) ++ List.replicate k Event.logShuttingDown,
        none :: List.replicate k none) := by
    simp only [ShutdownRun, hfirst, ShutdownRun_of_flag k _ (shutdownBody_flag s)]
  refine ⟨by rw [hrun], ?_, ?_, ?_, Shutdown_of_flag, ?_⟩
  · rw [hrun, shutdownBody_events]
    simp
  · rw [hrun]
    simp [List.replicate_succ]
  · rw [hrun]
    exact shutdownBody_flag s
  · intro s2
    by_cases h2 : s2.shutdown = true
    · rw [Shutdown_of_flag s2 h2]
      exact ⟨h2, rfl⟩
    · have h3 : s2.shutdown = false := by simpa using h2
      simp [Server.Shutdown, h3, shutdownBody_flag]

/-- C8 on three calls of `Shutdown` on a running server: one Leave, one
Shutdown of serf and one Close, by the first call, and three times nil. -/
theorem Shutdown_idempotent_witness :
    (ShutdownRun 3 runningServer).2.1 =
      [Event.logShuttingDown, Event.serfLeave, Event.serfShutdown, Event.listenerClose,
        Event.logShuttingDown, Event.logShuttingDown] ∧
    (ShutdownRun 3 runningServer).2.2 = [none, none, none] ∧
    (ShutdownRun 3 runningServer).1.shutdown = true :=
  ⟨(Shutdown_idempotent 3 runningServer (by decide) rfl).2.1,
    (Shutdown_idempotent 3 runningServer (by decide) rfl).2.2.1,
    (Shutdown_idempotent 3 runningServer (by decide) rfl).2.2.2.1⟩

/-- C9 fails on the code: `Shutdown` leaves `shutdownCh` as it was, so on a
running server, after `Shutdown` has returned with the flag set, the channel
is still open, a pending tick is the only case of the `select` in
`updateHosts` that can fire, and that pass calls `update`, with whatever
`Members()` answers then (the local member marked as left included). -/
theorem Shutdown_leaves_timer_running :
    (∀ s : Server, s.Shutdown.1.shutdownCh = s.shutdownCh) ∧
    runningServer.Shutdown.1.shutdown = true ∧
    runningServer.Shutdown.1.shutdownCh.closed = false ∧
    runningServer.Shutdown.1.updateHostsReady true = [SelectCase.tick] ∧
    (∀ members : List Member,
      (runningServer.Shutdown.1.updateHostsStep members SelectCase.tick).2 =
        ([Event.hostsUpdate members], LoopStep.next)) ∧
    (runningServer.Shutdown.1.updateHostsStep
        [⟨"a".toList, "10.0.0.1".toList, MemberStatus.StatusLeft⟩] SelectCase.tick).2 =
      ([Event.hostsUpdate [⟨"a".toList, "10.0.0.1".toList, MemberStatus.StatusLeft⟩]],
        LoopStep.next) := by
  refine ⟨?_, by decide, by decide, by decide, fun members => rfl, rfl⟩
  intro s
  unfold Server.Shutdown Server.shutdownBody
  cases s.shutdown <;> cases s.rpcListener <;> rfl

/-- C10 fails on the code: when `Accept` fails, with a `nil` connection, and
the flag is clear, the pass logs the failure and then goes on to call
`RemoteAddr` on the `nil` connection instead of starting the next pass; with
the flag set it returns with nothing logged, and a connection accepted
without error is logged and served. -/
theorem listenRPC_failed_accept_uses_nil_conn (s : Server) (e : GoError) (c : Conn) :
    s.listenRPCStep none (some e) =
      (if s.shutdown then ([], LoopStep.ret)
        else ([Event.logAcceptFailed e], LoopStep.nilDeref)) ∧
    s.listenRPCStep (some c) none =
      ([Event.logAccepted c, Event.serveConn c], LoopStep.next) := by
  unfold Server.listenRPCStep
  cases s.shutdown <;> simp

end Sr6
